import Mathlib

/-!
Verification of the go-reflection library (package reflection) against its
specification. The Go reflection primitives used by the package are shallowly
embedded: Go types become the inductive `Ty`, Go runtime values become the
inductive `Val`, struct field metadata (reflect.StructField) becomes `SField`,
and panics are modelled with `Except String`. Each function of the repository
is translated from its source definition.
-/

set_option maxHeartbeats 1000000
set_option maxRecDepth 4000

namespace GoReflection

/-- Tags models the parsed form of a Go struct tag (reflect.StructTag): an
association list from tag key to tag value. -/
abbrev Tags := List (String × String)

/-- tagLookup models reflect.StructTag.Lookup: the value stored under a key,
when the key is present. -/
def tagLookup (tg : Tags) (key : String) : Option String :=
  (tg.find? (fun kv => kv.1 == key)).map (fun kv => kv.2)

/-- tagGet models reflect.StructTag.Get: the value stored under a key, or the
empty string when the key is absent. -/
def tagGet (tg : Tags) (key : String) : String :=
  (tagLookup tg key).getD ""

/-- charsSplitComma splits a character list at its first comma, returning the
characters before and after it, or none when no comma occurs. It models the
strings.IndexByte / strings.IndexRune comma search used by the repository. -/
def charsSplitComma : List Char → Option (List Char × List Char)
  | [] => none
  | c :: rest =>
    if c = ',' then some ([], rest)
    else
      match charsSplitComma rest with
      | some (a, b) => some (c :: a, b)
      | none => none

/-- beforeComma models the truncation name[:comma]: the part of a string before
its first comma, or the whole string when it has no comma. -/
def beforeComma (s : String) : String :=
  match charsSplitComma s.data with
  | some (a, _) => String.mk a
  | none => s

/-- afterComma is the part of a string after its first comma, or the empty
string when it has no comma. -/
def afterComma (s : String) : String :=
  match charsSplitComma s.data with
  | some (_, b) => String.mk b
  | none => ""

/-- strContainsDash models strings.Contains(name, "-"): since the needle is a
single character, it holds exactly when some character of the string is a dash. -/
def strContainsDash (s : String) : Bool :=
  s.data.any (fun c => c = '-')

mutual
/-- Ty models a Go reflect.Type, covering the kinds the repository handles:
int stands in for all numeric kinds, and func, chan, map and interface types
are kept opaque because the repository only inspects their nilness. -/
inductive Ty : Type where
  | intT : Ty
  | strT : Ty
  | boolT : Ty
  | ptrT (elem : Ty) : Ty
  | structT (fields : FieldList) : Ty
  | sliceT (elem : Ty) : Ty
  | arrayT (size : Nat) (elem : Ty) : Ty
  | mapT : Ty
  | funcT : Ty
  | chanT : Ty
  | ifaceT : Ty

/-- FieldList is the list of declared fields of a struct type, in declaration
order. -/
inductive FieldList : Type where
  | nil : FieldList
  | cons (f : SField) (rest : FieldList) : FieldList

/-- SField models reflect.StructField: declared name, parsed tag, the result of
IsExported (PkgPath == ""), the Anonymous flag, and the field type. -/
inductive SField : Type where
  | mk (name : String) (tag : Tags) (exported : Bool) (anon : Bool) (ty : Ty) : SField
end

/-- name is the declared name of a struct field. -/
def SField.name : SField → String
  | .mk n _ _ _ _ => n

/-- tag is the parsed struct tag of a field. -/
def SField.tag : SField → Tags
  | .mk _ t _ _ _ => t

/-- exported is the IsExported flag of a field. -/
def SField.exported : SField → Bool
  | .mk _ _ e _ _ => e

/-- anon is the Anonymous (embedded) flag of a field. -/
def SField.anon : SField → Bool
  | .mk _ _ _ a _ => a

/-- ty is the declared type of a field. -/
def SField.ty : SField → Ty
  | .mk _ _ _ _ t => t

mutual
/-- Val models a Go runtime value as seen through reflect.Value. Pointers and
slices record their element type so that the dynamic type of every non-invalid
value is recoverable, matching reflect.Value.Type. The constructor invalid is
the zero reflect.Value. Func, chan, map and interface values only record
whether they are nil, which is all the repository ever asks of them. -/
inductive Val : Type where
  | intV (n : Int) : Val
  | strV (s : String) : Val
  | boolV (b : Bool) : Val
  | ptrV (elem : Ty) (p : PtrVal) : Val
  | structV (fields : FieldList) (vals : ValList) : Val
  | sliceV (elem : Ty) (s : SliceVal) : Val
  | arrayV (elem : Ty) (elems : ValList) : Val
  | mapV (nilMap : Bool) : Val
  | funcV (nilFunc : Bool) : Val
  | chanV (nilChan : Bool) : Val
  | ifaceV (nilIface : Bool) : Val
  | invalid : Val

/-- PtrVal is the content of a pointer value: nil, or a pointee. -/
inductive PtrVal : Type where
  | nilP : PtrVal
  | toP (v : Val) : PtrVal

/-- SliceVal is the content of a slice value: nil, or a list of elements. -/
inductive SliceVal : Type where
  | nilS : SliceVal
  | mkS (elems : ValList) : SliceVal

/-- ValList is a list of runtime values, used for struct fields and for
array and slice elements. -/
inductive ValList : Type where
  | nil : ValList
  | cons (v : Val) (rest : ValList) : ValList
end

/-- length of a ValList, used for the dynamic type of arrays. -/
def ValList.length : ValList → Nat
  | .nil => 0
  | .cons _ r => 1 + r.length

/-- typeOfVal models reflect.Value.Type viewed as a partial function: every
value except the invalid one has a dynamic type; Type panics on the invalid
value, which is the none case here. -/
def typeOfVal : Val → Option Ty
  | .intV _ => some .intT
  | .strV _ => some .strT
  | .boolV _ => some .boolT
  | .ptrV e _ => some (.ptrT e)
  | .structV fs _ => some (.structT fs)
  | .sliceV e _ => some (.sliceT e)
  | .arrayV e es => some (.arrayT es.length e)
  | .mapV _ => some .mapT
  | .funcV _ => some .funcT
  | .chanV _ => some .chanT
  | .ifaceV _ => some .ifaceT
  | .invalid => none

/-- showTy renders a type the way the %T format verb identifies it in the
panic messages of the repository. Struct field lists are rendered opaquely;
the rendering only needs to name the offending type. -/
def showTy : Ty → String
  | .intT => "int"
  | .strT => "string"
  | .boolT => "bool"
  | .ptrT e => "*" ++ showTy e
  | .structT _ => "struct"
  | .sliceT e => "[]" ++ showTy e
  | .arrayT n e => "[" ++ toString n ++ "]" ++ showTy e
  | .mapT => "map"
  | .funcT => "func"
  | .chanT => "chan"
  | .ifaceT => "interface"

/-- showAnyTy renders the dynamic type of an argument for a %T message; the
nil interface prints as <nil>. -/
def showAnyTy (v : Val) : String :=
  match typeOfVal v with
  | some t => showTy t
  | none => "<nil>"

/-- isStructTy tests for the struct kind, modelling Kind() == reflect.Struct. -/
def isStructTy : Ty → Bool
  | .structT _ => true
  | _ => false

/-- derefValue models DerefValue (structs.go): follow pointer indirection
while the value is a pointer and not nil, so dereferencing stops at a nil
pointer or at a non-pointer value. -/
def derefValue : Val → Val
  | .ptrV e .nilP => .ptrV e .nilP
  | .ptrV _ (.toP w) => derefValue w
  | v => v

/-- derefType models DerefType: strip pointer types down to the first
non-pointer type. -/
def derefType : Ty → Ty
  | .ptrT e => derefType e
  | t => t

/-- derefValueOld models the DerefValue loop of the reflection.go revision,
which has no nil guard: Elem of a nil pointer is the invalid value, on which
the loop then stops because its kind is Invalid, not Ptr. -/
def derefValueOld : Val → Val
  | .ptrV _ .nilP => .invalid
  | .ptrV _ (.toP w) => derefValueOld w
  | v => v

/-- typeZeroMsg is the reflect panic message of Value.Type on the zero Value. -/
def typeZeroMsg : String := "reflect: call of reflect.Value.Type on zero Value"

/-- derefValueAndTypeOld models DerefValueAndType of reflection.go (the
revision without the nil guard): it runs the unguarded loop and then takes
v.Type(), which panics when the loop ended on the invalid value. -/
def derefValueAndTypeOld (val : Val) : Except String (Val × Ty) :=
  let v := derefValueOld val
  match typeOfVal v with
  | some t => .ok (v, t)
  | none => .error typeZeroMsg

/-- derefValueAndType models DerefValueAndType of the current revision (the
loop with the nil guard, as in DerefValue), followed by v.Type(). -/
def derefValueAndType (val : Val) : Except String (Val × Ty) :=
  let v := derefValue val
  match typeOfVal v with
  | some t => .ok (v, t)
  | none => .error typeZeroMsg

/-- isNil models IsNil of the current revision (structs.go, the version with
the IsValid guard): true for the invalid value and for nil instances of the
chan, func, map, pointer, interface and slice kinds; false for every other
kind. It is total, so it never panics. -/
def isNil : Val → Bool
  | .invalid => true
  | .ptrV _ .nilP => true
  | .ptrV _ (.toP _) => false
  | .sliceV _ .nilS => true
  | .sliceV _ (.mkS _) => false
  | .mapV b => b
  | .funcV b => b
  | .chanV b => b
  | .ifaceV b => b
  | _ => false

/-- kindCanBeNil follows the spec wording for isNilLike: the kinds that can
represent no value are pointer, interface, function reference, channel, map
and slice. -/
def kindCanBeNil : Val → Bool
  | .ptrV _ _ => true
  | .ifaceV _ => true
  | .funcV _ => true
  | .chanV _ => true
  | .mapV _ => true
  | .sliceV _ _ => true
  | _ => false

/-- instanceIsNil states whether an instance of a nillable kind is actually
nil; on other kinds it is false. -/
def instanceIsNil : Val → Bool
  | .ptrV _ .nilP => true
  | .sliceV _ .nilS => true
  | .mapV b => b
  | .funcV b => b
  | .chanV b => b
  | .ifaceV b => b
  | _ => false

/-- isNilLikeSpec is the specification-side definition of isNilLike, assembled
from the spec words: true for an absent/invalid value, and for any value whose
kind can represent no value when that instance is actually nil; false for
every other kind. -/
def isNilLikeSpec (v : Val) : Bool :=
  (match v with | .invalid => true | _ => false) || (kindCanBeNil v && instanceIsNil v)

/-- valReplicate builds the value list of a zero array: n copies of a value. -/
def valReplicate : Nat → Val → ValList
  | 0, _ => .nil
  | n + 1, v => .cons v (valReplicate n v)

mutual
/-- zeroVal models reflect.Zero: the zero (default) value of a type. -/
def zeroVal : Ty → Val
  | .intT => .intV 0
  | .strT => .strV ""
  | .boolT => .boolV false
  | .ptrT e => .ptrV e .nilP
  | .structT fs => .structV fs (zeroValFields fs)
  | .sliceT e => .sliceV e .nilS
  | .arrayT n e => .arrayV e (valReplicate n (zeroVal e))
  | .mapT => .mapV true
  | .funcT => .funcV true
  | .chanT => .chanV true
  | .ifaceT => .ifaceV true

/-- zeroValFields is the list of zero values of a struct field list. -/
def zeroValFields : FieldList → ValList
  | .nil => .nil
  | .cons (.mk _ _ _ _ t) rest => .cons (zeroVal t) (zeroValFields rest)
end

mutual
/-- deepEqual models reflect.DeepEqual on same-typed arguments, which is the
only way the repository calls it (a value against the zero value of its own
dynamic type). A nil and a non-nil pointer are never deeply equal, because
dereferencing the nil side yields the invalid value; non-nil pointers compare
their pointees; a nil and a non-nil slice are never deeply equal; func values
are deeply equal only when both are nil. Map, chan and interface values are
compared through their nilness only, which agrees with reflect.DeepEqual
whenever one side is the zero (nil) value, the only comparison the repository
performs on these kinds. -/
def deepEqual : Val → Val → Bool
  | .intV a, .intV b => a == b
  | .strV a, .strV b => a == b
  | .boolV a, .boolV b => a == b
  | .ptrV _ .nilP, .ptrV _ .nilP => true
  | .ptrV _ (.toP a), .ptrV _ (.toP b) => deepEqual a b
  | .structV _ va, .structV _ vb => deepEqualList va vb
  | .sliceV _ .nilS, .sliceV _ .nilS => true
  | .sliceV _ (.mkS a), .sliceV _ (.mkS b) => deepEqualList a b
  | .arrayV _ a, .arrayV _ b => deepEqualList a b
  | .mapV a, .mapV b => a && b
  | .funcV a, .funcV b => a && b
  | .chanV a, .chanV b => a && b
  | .ifaceV a, .ifaceV b => a && b
  | .invalid, .invalid => true
  | _, _ => false

/-- deepEqualList compares two value lists pointwise. -/
def deepEqualList : ValList → ValList → Bool
  | .nil, .nil => true
  | .cons a as, .cons b bs => deepEqual a b && deepEqualList as bs
  | _, _ => false
end

/-- isZero models IsZero (validate.go): true when the argument is the nil
interface (here the invalid value, whose dynamic type is absent), or when it
deep-equals the zero value of its dynamic type. -/
def isZero (v : Val) : Bool :=
  match typeOfVal v with
  | none => true
  | some t => deepEqual v (zeroVal t)

/-- exportedFieldName models exportedFieldName (structs.go): unexported fields
are invalid; an absent tag resolves to the declared name; a present tag value
is cut at its first comma; the candidate - means the field is skipped; any
other candidate, including the empty one, is the resolved name. -/
def exportedFieldName (field : SField) (nameTag : String) : String × Bool :=
  if field.exported = false then ("", false)
  else
    match tagLookup field.tag nameTag with
    | none => (field.name, true)
    | some nm =>
      let nm := beforeComma nm
      if nm = "-" then ("", false) else (nm, true)

/-- getFieldName models getFieldName (validate.go): the tag value for the key
(empty when absent) is split at its first comma into name and ext; an empty
name falls back to the declared field name; the prefix is prepended. -/
def getFieldName (field : SField) (pfx nameTag : String) : String × String :=
  let nm := tagGet field.tag nameTag
  let pair : String × String :=
    match charsSplitComma nm.data with
    | some (a, b) => (String.mk a, String.mk b)
    | none => (nm, "")
  let nm2 := if pair.1 = "" then field.name else pair.1
  (pfx ++ nm2, pair.2)

/-- ignoreField models ignoreField (validate.go): with an empty allow-list a
name is ignored exactly when it contains a dash; with a non-empty allow-list
a name not in the list is ignored, and a listed name is again ignored exactly
when it contains a dash. -/
def ignoreField (namesToValidate : List String) (name : String) (_ext : String) : Bool :=
  if namesToValidate = [] then strContainsDash name
  else if name ∈ namesToValidate then strContainsDash name
  else true

/-- sizeOf_derefType_le bounds the size of a dereferenced type, justifying
termination of the flattening recursions. -/
theorem sizeOf_derefType_le (t : Ty) : sizeOf (derefType t) ≤ sizeOf t := by
  match t with
  | .ptrT e =>
    have := sizeOf_derefType_le e
    simp [derefType]
    omega
  | .intT | .strT | .boolT | .structT _ | .sliceT _ | .arrayT _ _
  | .mapT | .funcT | .chanT | .ifaceT =>
    simp [derefType]

/-- sizeOf_derefValue_le bounds the size of a dereferenced value, justifying
termination of the traversal recursions. -/
theorem sizeOf_derefValue_le (v : Val) : sizeOf (derefValue v) ≤ sizeOf v := by
  match v with
  | .ptrV e .nilP => simp [derefValue]
  | .ptrV e (.toP w) =>
    have := sizeOf_derefValue_le w
    simp [derefValue]
    omega
  | .intV _ | .strV _ | .boolV _ | .structV _ _ | .sliceV _ .nilS
  | .sliceV _ (.mkS _) | .arrayV _ _ | .mapV _ | .funcV _ | .chanV _
  | .ifaceV _ | .invalid =>
    simp [derefValue]

/-- exceptBindOk lets simp reduce monadic code over Except on a successful
first step. -/
@[simp] theorem exceptBindOk {α β : Type} (a : α) (f : α → Except String β) :
    (Except.ok a >>= f : Except String β) = f a := rfl

/-- exceptBindErr lets simp propagate an error through monadic code over
Except. -/
@[simp] theorem exceptBindErr {α β : Type} (e : String) (f : α → Except String β) :
    (Except.error e >>= f : Except String β) = Except.error e := rfl

/-- exceptPure identifies pure with ok for simp. -/
@[simp] theorem exceptPure {α : Type} (a : α) :
    (pure a : Except String α) = Except.ok a := rfl

/-- exceptMapOk reduces Except.map on a success. -/
@[simp] theorem exceptMapOk {α β : Type} (f : α → β) (a : α) :
    (Except.map f (Except.ok a) : Except String β) = Except.ok (f a) := rfl

/-- exceptMapErr reduces Except.map on an error. -/
@[simp] theorem exceptMapErr {α β : Type} (f : α → β) (e : String) :
    (Except.map f (Except.error e) : Except String β) = Except.error e := rfl

/-- exceptBindEqOk inverts a successful bind over Except into the success of
both steps. -/
theorem exceptBindEqOk {α β : Type} {x : Except String α} {f : α → Except String β}
    {b : β} (h : x >>= f = Except.ok b) : ∃ a, x = Except.ok a ∧ f a = Except.ok b := by
  cases x with
  | ok a => exact ⟨a, rfl, h⟩
  | error e => simp at h

/-- numFieldMsg is the reflect panic message of Type.NumField on a non-struct
type. -/
def numFieldMsg (t : Ty) : String :=
  "reflect: NumField of non-struct type " ++ showTy t

mutual
/-- flatStructFieldCount models FlatStructFieldCount (structs.go): dereference
the type, then count fields, recursing into anonymous fields; NumField panics
when the dereferenced type is not a struct. -/
def flatStructFieldCount (t : Ty) : Except String Nat :=
  match h : derefType t with
  | .structT fs => flatCountFields fs
  | t2 => .error (numFieldMsg t2)
termination_by sizeOf t
decreasing_by
  have := sizeOf_derefType_le t
  rw [h] at this
  simp at this
  omega

/-- flatCountFields is the field loop of FlatStructFieldCount. -/
def flatCountFields (fl : FieldList) : Except String Nat :=
  match fl with
  | .nil => .ok 0
  | .cons (.mk _ _ _ anon ty) rest =>
    (if anon then flatStructFieldCount ty else pure 1) >>= fun a =>
    flatCountFields rest >>= fun b =>
    pure (a + b)
termination_by sizeOf fl
decreasing_by
  all_goals simp
  all_goals omega
end

mutual
/-- flatStructFieldNames models FlatStructFieldNames (structs.go): dereference
the type, then collect declared names, splicing the flattened names of
anonymous fields in place. -/
def flatStructFieldNames (t : Ty) : Except String (List String) :=
  match h : derefType t with
  | .structT fs => flatNamesFields fs
  | t2 => .error (numFieldMsg t2)
termination_by sizeOf t
decreasing_by
  have := sizeOf_derefType_le t
  rw [h] at this
  simp at this
  omega

/-- flatNamesFields is the field loop of FlatStructFieldNames. -/
def flatNamesFields (fl : FieldList) : Except String (List String) :=
  match fl with
  | .nil => .ok []
  | .cons (.mk nm _ _ anon ty) rest =>
    (if anon then flatStructFieldNames ty else pure [nm]) >>= fun a =>
    flatNamesFields rest >>= fun b =>
    pure (a ++ b)
termination_by sizeOf fl
decreasing_by
  all_goals simp
  all_goals omega
end

/-- flatTagsFields is the field loop of FlatStructFieldTags; note that the
anonymous branch splices the result of FlatStructFieldNames, exactly as the
source does. -/
def flatTagsFields (fl : FieldList) (tagKey : String) : Except String (List String) :=
  match fl with
  | .nil => .ok []
  | .cons (.mk _ tg _ anon ty) rest =>
    (if anon then flatStructFieldNames ty else pure [tagGet tg tagKey]) >>= fun a =>
    flatTagsFields rest tagKey >>= fun b =>
    pure (a ++ b)

/-- flatStructFieldTags models FlatStructFieldTags (structs.go). -/
def flatStructFieldTags (t : Ty) (tagKey : String) : Except String (List String) :=
  match derefType t with
  | .structT fs => flatTagsFields fs tagKey
  | t2 => .error (numFieldMsg t2)

/-- flatTagsOrNamesFields is the field loop of FlatStructFieldTagsOrNames; its
anonymous branch also splices the result of FlatStructFieldNames, exactly as
the source does. -/
def flatTagsOrNamesFields (fl : FieldList) (tagKey : String) : Except String (List String) :=
  match fl with
  | .nil => .ok []
  | .cons (.mk nm tg _ anon ty) rest =>
    (if anon then flatStructFieldNames ty
     else
       let tagOrName := tagGet tg tagKey
       pure [if tagOrName = "" then nm else tagOrName]) >>= fun a =>
    flatTagsOrNamesFields rest tagKey >>= fun b =>
    pure (a ++ b)

/-- flatStructFieldTagsOrNames models FlatStructFieldTagsOrNames (structs.go). -/
def flatStructFieldTagsOrNames (t : Ty) (tagKey : String) : Except String (List String) :=
  match derefType t with
  | .structT fs => flatTagsOrNamesFields fs tagKey
  | t2 => .error (numFieldMsg t2)

/-- isAddrInput states whether the struct reached by dereferencing the
argument is addressable: ValueOf of an interface argument is not addressable,
and Elem of a pointer is, so the dereferenced value is addressable exactly
when the argument itself is a non-nil pointer. -/
def isAddrInput : Val → Bool
  | .ptrV _ (.toP _) => true
  | _ => false

/-- addrOf models Value.Addr().Interface(): a pointer to the given value. -/
def addrOf (v : Val) : Val :=
  .ptrV ((typeOfVal v).getD .ifaceT) (.toP v)

/-- structArgMsg is the panic message of the FlatExportedStructFields family. -/
def structArgMsg (fn : String) (st : Val) : String :=
  fn ++ " expects struct, pointer to or reflect.Value of a struct argument, but got: " ++ showAnyTy st

mutual
/-- flatExportedStructFields models FlatExportedStructFields (structs.go):
dereference the argument, require a struct, then in declaration order recurse
into anonymous fields and emit every exported non-anonymous field paired with
its value. -/
def flatExportedStructFields (val : Val) : Except String (List (SField × Val)) :=
  match h : derefValue val with
  | .structV fs vs => flatExpFields fs vs
  | .invalid => .error typeZeroMsg
  | _ => .error (structArgMsg "FlatExportedStructFields" val)
termination_by sizeOf (derefValue val)
decreasing_by
  rw [h]
  simp
  all_goals omega

/-- flatExpFields is the field loop of FlatExportedStructFields. -/
def flatExpFields (fl : FieldList) (vl : ValList) : Except String (List (SField × Val)) :=
  match fl, vl with
  | .cons (.mk nm tg ex anon ty) fr, .cons v vr =>
    (if anon then flatExportedStructFields v
     else if ex then pure [(SField.mk nm tg ex anon ty, v)]
     else pure []) >>= fun head =>
    flatExpFields fr vr >>= fun rest =>
    pure (head ++ rest)
  | _, _ => .ok []
termination_by sizeOf vl
decreasing_by
  all_goals simp [addrOf, derefValue]
  all_goals try omega
  all_goals try (cases addr <;> simp [addrOf, derefValue] <;> omega)
  all_goals try (have hv9 := sizeOf_derefValue_le v; omega)
  all_goals (have hw9 := sizeOf_derefValue_le w; omega)
end

/-- foldlStop folds a stateful yield function over a list with early
termination, mirroring how a Go for-range loop consumes an iter.Seq2: the
Bool result is false exactly when the consumer stopped the iteration early. -/
def foldlStop {σ : Type} (yield : σ → SField × Val → σ × Bool) :
    σ → List (SField × Val) → σ × Bool
  | st, [] => (st, true)
  | st, e :: es =>
    match yield st e with
    | (st2, true) => foldlStop yield st2 es
    | (st2, false) => (st2, false)

mutual
/-- flatExportedStructFieldsIter models running the iterator returned by
FlatExportedStructFieldsIter (structs.go) with a stateful consumer: the
argument is checked to be a struct when the iterator is constructed, and the
iteration visits fields in declaration order, splicing the entries of
anonymous fields in place and stopping as soon as the consumer's yield
returns false. -/
def flatExportedStructFieldsIter {σ : Type} (yield : σ → SField × Val → σ × Bool)
    (s : Val) (st : σ) : Except String (σ × Bool) :=
  match h : derefValue s with
  | .structV fs vs => iterFields yield fs vs st
  | .invalid => .error typeZeroMsg
  | _ => .error (structArgMsg "FlatExportedStructFieldsIter" s)
termination_by sizeOf (derefValue s)
decreasing_by
  rw [h]
  simp
  all_goals omega

/-- iterFields is the field loop of the iterator body of
FlatExportedStructFieldsIter. -/
def iterFields {σ : Type} (yield : σ → SField × Val → σ × Bool)
    (fl : FieldList) (vl : ValList) (st : σ) : Except String (σ × Bool) :=
  match fl, vl with
  | .cons (.mk nm tg ex anon ty) fr, .cons v vr =>
    if anon then
      flatExportedStructFieldsIter yield v st >>= fun r =>
      match r with
      | (st2, true) => iterFields yield fr vr st2
      | (st2, false) => pure (st2, false)
    else if ex then
      match yield st (SField.mk nm tg ex anon ty, v) with
      | (st2, true) => iterFields yield fr vr st2
      | (st2, false) => pure (st2, false)
    else iterFields yield fr vr st
  | _, _ => pure (st, true)
termination_by sizeOf vl
decreasing_by
  all_goals simp [addrOf, derefValue]
  all_goals try omega
  all_goals try (cases addr <;> simp [addrOf, derefValue] <;> omega)
  all_goals try (have hv9 := sizeOf_derefValue_le v; omega)
  all_goals (have hw9 := sizeOf_derefValue_le w; omega)
end

/-- FieldError models the FieldError struct (validate.go) as the pair of the
resolved field name and the validation error message. -/
abbrev FieldError := String × String

/-- validate models validate (validate.go): run the validator on the value;
on no error and an addressable value, also on its address; on no error again
and a non-nil pointer value, also on the dereferenced pointee; the first
error of the chain is the result. -/
def validate (f : Val → Option String) (addr : Bool) (v : Val) : Option String :=
  match f v with
  | some e => some e
  | none =>
    if addr then
      match f (addrOf v) with
      | some e => some e
      | none =>
        match v with
        | .ptrV _ (.toP w) => f w
        | _ => none
    else none

/-- validateElems is the slice and array element loop of ValidateStructFields:
each element runs through the same validate chain, with its index appended to
the field name in brackets. -/
def validateElems (f : Val → Option String) (addr : Bool) :
    ValList → String → Nat → List FieldError
  | .nil, _, _ => []
  | .cons v rest, fieldName, j =>
    (match validate f addr v with
     | some e => [(fieldName ++ "[" ++ toString j ++ "]", e)]
     | none => []) ++ validateElems f addr rest fieldName (j + 1)

/-- one_le_sizeOf_valList: every value list has positive size, used by the
termination measures below. -/
theorem one_le_sizeOf_valList (vl : ValList) : 1 ≤ sizeOf vl := by
  cases vl <;> simp <;> omega

mutual
/-- validateStructFields models ValidateStructFields (validate.go):
dereference the argument, require a struct, then for every exported field
surviving the name filter run the validate chain, record at most one
FieldError under the resolved name, and recurse into struct fields and into
slice or array elements; a map field panics with TODO. -/
def validateStructFields (f : Val → Option String) (st : Val)
    (pfx nameTag : String) (namesToValidate : List String) :
    Except String (List FieldError) :=
  match h : derefValue st with
  | .structV fs vs => validateFieldsGo f (isAddrInput st) fs vs pfx nameTag namesToValidate
  | .invalid => .error typeZeroMsg
  | _ => .error (showAnyTy st ++ " is not a struct or pointer to a struct")
termination_by sizeOf (derefValue st)
decreasing_by
  rw [h]
  simp
  all_goals omega

/-- validateFieldHead is the per-field body of the loop of
ValidateStructFields: skip unexported and filtered fields, record the first
chain error under the resolved name, then recurse structurally into struct
fields and slice or array elements; map fields panic TODO. -/
def validateFieldHead (f : Val → Option String) (addr : Bool) (fld : SField)
    (v : Val) (pfx nameTag : String) (allow : List String) :
    Except String (List FieldError) :=
  if fld.exported = false then pure []
  else
    let fn := getFieldName fld pfx nameTag
    if ignoreField allow fn.1 fn.2 then pure []
    else
      let own : List FieldError :=
        match validate f addr v with
        | some e => [(fn.1, e)]
        | none => []
      (match v with
       | .structV sfs svs =>
         validateStructFields f
           (if addr then addrOf (.structV sfs svs) else .structV sfs svs)
           (fn.1 ++ ".") nameTag allow
       | .sliceV _ .nilS => pure ([] : List FieldError)
       | .sliceV _ (.mkS es) => pure (validateElems f true es fn.1 0)
       | .arrayV _ es => pure (validateElems f addr es fn.1 0)
       | .mapV _ => Except.error "TODO"
       | _ => pure []) >>= fun extra =>
      pure (own ++ extra)
termination_by sizeOf v + 1
decreasing_by
  cases addr <;> simp [addrOf, derefValue] <;> omega

/-- validateFieldsGo is the field loop of ValidateStructFields. -/
def validateFieldsGo (f : Val → Option String) (addr : Bool)
    (fl : FieldList) (vl : ValList) (pfx nameTag : String)
    (allow : List String) : Except String (List FieldError) :=
  match fl, vl with
  | .cons fld fr, .cons v vr =>
    validateFieldHead f addr fld v pfx nameTag allow >>= fun head =>
    validateFieldsGo f addr fr vr pfx nameTag allow >>= fun rest =>
    pure (head ++ rest)
  | _, _ => .ok []
termination_by sizeOf vl
decreasing_by
  all_goals have := one_le_sizeOf_valList vr
  all_goals simp
  all_goals omega
end

/-- zeroElems is the slice and array element loop of
ZeroValueExportedStructFieldNames: zero elements are reported under the field
name with their index in brackets. -/
def zeroElems : ValList → String → Nat → List String
  | .nil, _, _ => []
  | .cons v rest, fieldName, j =>
    (if isZero v then [fieldName ++ "[" ++ toString j ++ "]"] else []) ++
      zeroElems rest fieldName (j + 1)

mutual
/-- zeroValueExportedStructFieldNames models ZeroValueExportedStructFieldNames
(validate.go): dereference the argument, require a struct, then for every
exported field surviving the name filter report nil pointers, recurse into
structs and pointers to structs, report nil slices and zero slice or array
elements, report nil maps and panic TODO on non-nil maps, and otherwise
report the field when the generic zero check holds on its value. -/
def zeroValueExportedStructFieldNames (st : Val) (pfx nameTag : String)
    (namesToValidate : List String) : Except String (List String) :=
  match h : derefValue st with
  | .structV fs vs => zeroFieldsGo (isAddrInput st) fs vs pfx nameTag namesToValidate
  | .invalid => .error typeZeroMsg
  | _ => .error (showAnyTy st ++ " is not a struct or pointer to a struct")
termination_by sizeOf (derefValue st)
decreasing_by
  rw [h]
  simp
  all_goals omega

/-- zeroFieldHead is the per-field body of the loop of
ZeroValueExportedStructFieldNames: skip unexported and filtered fields, then
dispatch on the field kind as the source switch does, falling through to the
generic zero check. -/
def zeroFieldHead (addr : Bool) (fld : SField) (v : Val)
    (pfx nameTag : String) (allow : List String) : Except String (List String) :=
  if fld.exported = false then pure []
  else
    let fn := getFieldName fld pfx nameTag
    if ignoreField allow fn.1 fn.2 then pure []
    else
      match v with
      | .ptrV _ .nilP => pure [fn.1]
      | .ptrV e (.toP w) =>
        if isStructTy e then
          zeroValueExportedStructFieldNames (.ptrV e (.toP w)) (fn.1 ++ ".") nameTag allow
        else pure (if isZero (.ptrV e (.toP w)) then [fn.1] else [])
      | .structV sfs svs =>
        zeroValueExportedStructFieldNames
          (if addr then addrOf (.structV sfs svs) else .structV sfs svs)
          (fn.1 ++ ".") nameTag allow
      | .sliceV _ .nilS => pure [fn.1]
      | .sliceV _ (.mkS es) => pure (zeroElems es fn.1 0)
      | .arrayV _ es => pure (zeroElems es fn.1 0)
      | .mapV true => pure [fn.1]
      | .mapV false => Except.error "TODO"
      | w => pure (if isZero w then [fn.1] else [])
termination_by sizeOf v + 1
decreasing_by
  · simp [derefValue]
    have := sizeOf_derefValue_le w
    omega
  · cases addr <;> simp [addrOf, derefValue] <;> omega

/-- zeroFieldsGo is the field loop of ZeroValueExportedStructFieldNames. -/
def zeroFieldsGo (addr : Bool) (fl : FieldList) (vl : ValList)
    (pfx nameTag : String) (allow : List String) : Except String (List String) :=
  match fl, vl with
  | .cons fld fr, .cons v vr =>
    zeroFieldHead addr fld v pfx nameTag allow >>= fun head =>
    zeroFieldsGo addr fr vr pfx nameTag allow >>= fun rest =>
    pure (head ++ rest)
  | _, _ => .ok []
termination_by sizeOf vl
decreasing_by
  all_goals have := one_le_sizeOf_valList vr
  all_goals simp
  all_goals omega
end

/-- isStructVal tests whether a value has the struct kind. -/
def isStructVal : Val → Bool
  | .structV _ _ => true
  | _ => false

/-- isInvalidVal tests whether a value is the invalid (absent) value. -/
def isInvalidVal : Val → Bool
  | .invalid => true
  | _ => false

/-- isNonNilPtr tests whether a value is a pointer that is not nil. -/
def isNonNilPtr : Val → Bool
  | .ptrV _ (.toP _) => true
  | _ => false

/-- plainKind holds for the kinds on which the validation traversal does not
recurse further: everything except struct, slice, array and map. -/
def plainKind : Val → Bool
  | .structV _ _ => false
  | .sliceV _ _ => false
  | .arrayV _ _ => false
  | .mapV _ => false
  | _ => true

/-- chainArgs is the list of arguments the validate chain submits to the
validator, in order: the value itself; then, when the value is addressable,
its address; then, when the value is moreover a non-nil pointer, the
dereferenced pointee. -/
def chainArgs (addr : Bool) (v : Val) : List Val :=
  v :: (if addr then
          addrOf v :: (match v with
                       | .ptrV _ (.toP w) => [w]
                       | _ => [])
        else [])

/-- strMk_data rebuilds a string from its character list. -/
theorem strMk_data (s : String) : String.mk s.data = s := rfl

/-- charsSplitComma_none states that splitting a comma-free character list
finds nothing. -/
theorem charsSplitComma_none (cs : List Char) (h : ',' ∉ cs) :
    charsSplitComma cs = none := by
  induction cs with
  | nil => simp [charsSplitComma]
  | cons c rest ih =>
    simp only [List.mem_cons, not_or] at h
    simp [charsSplitComma, Ne.symm h.1, ih h.2]

/-- charsSplitComma_append states that splitting around an explicit first
comma recovers both sides, provided the left side is comma-free. -/
theorem charsSplitComma_append (a b : List Char) (h : ',' ∉ a) :
    charsSplitComma (a ++ ',' :: b) = some (a, b) := by
  induction a with
  | nil => simp [charsSplitComma]
  | cons c rest ih =>
    simp only [List.mem_cons, not_or] at h
    simp [charsSplitComma, Ne.symm h.1, ih h.2]

/-- beforeComma_of_append recovers the left side of a comma split. -/
theorem beforeComma_of_append (a b : String) (h : ',' ∉ a.data) :
    beforeComma (a ++ "," ++ b) = a := by
  unfold beforeComma
  rw [String.data_append, String.data_append]
  have : ("," : String).data ++ b.data = ',' :: b.data := rfl
  rw [List.append_assoc, this, charsSplitComma_append a.data b.data h]

/-- afterComma_of_append recovers the right side of a comma split. -/
theorem afterComma_of_append (a b : String) (h : ',' ∉ a.data) :
    afterComma (a ++ "," ++ b) = b := by
  unfold afterComma
  rw [String.data_append, String.data_append]
  have : ("," : String).data ++ b.data = ',' :: b.data := rfl
  rw [List.append_assoc, this, charsSplitComma_append a.data b.data h]

/-- beforeComma_no_comma leaves a comma-free string unchanged. -/
theorem beforeComma_no_comma (a : String) (h : ',' ∉ a.data) :
    beforeComma a = a := by
  unfold beforeComma
  rw [charsSplitComma_none a.data h]

/-- beforeComma_leading_comma states that a tag value starting with a comma
has the empty candidate name. -/
theorem beforeComma_leading_comma (b : String) :
    beforeComma ("," ++ b) = "" := by
  unfold beforeComma
  rw [String.data_append]
  have : ("," : String).data ++ b.data = ',' :: b.data := rfl
  rw [this]
  simp [charsSplitComma]

/-- getFieldName_eq re-expresses getFieldName through beforeComma and
afterComma. -/
theorem getFieldName_eq (f : SField) (pfx nameTag : String) :
    getFieldName f pfx nameTag =
      (pfx ++ (if beforeComma (tagGet f.tag nameTag) = "" then f.name
               else beforeComma (tagGet f.tag nameTag)),
       afterComma (tagGet f.tag nameTag)) := by
  unfold getFieldName beforeComma afterComma
  cases h : charsSplitComma (tagGet f.tag nameTag).data with
  | none =>
    simp only [h]
  | some p =>
    cases p with
    | mk a b => simp only [h]

/-- deepEqual_toP_nilP states that a non-nil pointer is never deeply equal to
the nil pointer, whatever it points to: reflect.DeepEqual dereferences both
sides and the nil side yields the invalid value. -/
theorem deepEqual_toP_nilP (e1 e2 : Ty) (w : Val) :
    deepEqual (.ptrV e1 (.toP w)) (.ptrV e2 .nilP) = false := rfl

/-- isZero_nonNilPtr states that the generic zero check is false on every
non-nil pointer, regardless of the pointee. -/
theorem isZero_nonNilPtr (e : Ty) (w : Val) :
    isZero (.ptrV e (.toP w)) = false := by
  simp [isZero, typeOfVal, zeroVal, deepEqual_toP_nilP]

/-- validate_none states that a validator that never errors makes the whole
validate chain return no error. -/
theorem validate_none (f : Val → Option String) (h : ∀ x, f x = none)
    (addr : Bool) (v : Val) : validate f addr v = none := by
  unfold validate
  simp only [h]
  cases addr <;> cases v <;> (try simp [h]) <;>
    (rename_i e p; cases p <;> simp [h])

/-- foldlStop_append runs an early-terminating fold over an appended list in
two stages. -/
theorem foldlStop_append {σ : Type} (yield : σ → SField × Val → σ × Bool)
    (l1 l2 : List (SField × Val)) (st : σ) :
    foldlStop yield st (l1 ++ l2) =
      match foldlStop yield st l1 with
      | (st2, true) => foldlStop yield st2 l2
      | (st2, false) => (st2, false) := by
  induction l1 generalizing st with
  | nil => simp [foldlStop]
  | cons e es ih =>
    simp only [List.cons_append, foldlStop]
    cases hy : yield st e with
    | mk st2 c =>
      cases c with
      | true => simp [ih st2]
      | false => simp

mutual
/-- flatCount_eq_namesLength_ty relates the flat field count of a type to the
length of its flat name list, including the panic cases, which coincide. -/
theorem flatCount_eq_namesLength_ty (t : Ty) :
    flatStructFieldCount t = Except.map List.length (flatStructFieldNames t) := by
  unfold flatStructFieldCount flatStructFieldNames
  cases h : derefType t with
  | structT fs =>
    simp only [h]
    exact flatCount_eq_namesLength_fields fs
  | _ => simp only [h, exceptMapErr]
termination_by sizeOf t
decreasing_by
  have := sizeOf_derefType_le t
  rw [h] at this
  simp at this
  omega

/-- flatCount_eq_namesLength_fields is the field-list form of the count and
name correspondence. -/
theorem flatCount_eq_namesLength_fields (fl : FieldList) :
    flatCountFields fl = Except.map List.length (flatNamesFields fl) := by
  match fl with
  | .nil => simp [flatCountFields, flatNamesFields]
  | .cons (.mk nm tg ex anon ty) rest =>
    have hr := flatCount_eq_namesLength_fields rest
    unfold flatCountFields flatNamesFields
    cases anon with
    | true =>
      have ha := flatCount_eq_namesLength_ty ty
      cases hA : flatStructFieldNames ty with
      | error e => simp [ha, hA]
      | ok l =>
        cases hR : flatNamesFields rest with
        | error e => simp [ha, hA, hr, hR]
        | ok lr => simp [ha, hA, hr, hR]
    | false =>
      cases hR : flatNamesFields rest with
      | error e => simp [hr, hR]
      | ok lr => simp [hr, hR, Nat.add_comm]
termination_by sizeOf fl
decreasing_by
  all_goals simp
  all_goals omega
end

mutual
/-- iterAgreeVal: whenever the eager FlatExportedStructFields succeeds with a
list of entries, running the FlatExportedStructFieldsIter iterator with any
stateful consumer is exactly an early-terminating fold of that consumer over
the eager list. -/
theorem iterAgreeVal {σ : Type} (yield : σ → SField × Val → σ × Bool)
    (s : Val) (st : σ) (l : List (SField × Val))
    (h : flatExportedStructFields s = .ok l) :
    flatExportedStructFieldsIter yield s st = .ok (foldlStop yield st l) := by
  unfold flatExportedStructFields at h
  unfold flatExportedStructFieldsIter
  generalize hd : derefValue s = d at h ⊢
  cases d
  case structV fs vs => exact iterAgreeFields yield fs vs st l h
  all_goals exact Except.noConfusion h
termination_by sizeOf (derefValue s)
decreasing_by
  rw [hd]
  simp
  all_goals omega

/-- iterAgreeFields is the field-list form of the eager and lazy agreement. -/
theorem iterAgreeFields {σ : Type} (yield : σ → SField × Val → σ × Bool)
    (fl : FieldList) (vl : ValList) (st : σ) (l : List (SField × Val))
    (h : flatExpFields fl vl = .ok l) :
    iterFields yield fl vl st = .ok (foldlStop yield st l) := by
  match fl, vl with
  | .nil, .nil | .nil, .cons _ _ | .cons _ _, .nil =>
    unfold flatExpFields at h
    simp at h
    unfold iterFields
    simp [h, foldlStop]
  | .cons (.mk nm tg ex anon ty) fr, .cons v vr =>
    unfold flatExpFields at h
    obtain ⟨head, hh, h2⟩ := exceptBindEqOk h
    obtain ⟨rest, hrest, h3⟩ := exceptBindEqOk h2
    simp at h3
    subst h3
    unfold iterFields
    cases anon with
    | true =>
      simp only [if_true] at hh ⊢
      rw [iterAgreeVal yield v st head hh]
      simp only [exceptBindOk]
      rw [foldlStop_append]
      cases hc : foldlStop yield st head with
      | mk st2 c =>
        cases c with
        | true => simp [iterAgreeFields yield fr vr st2 rest hrest]
        | false => simp
    | false =>
      simp only [Bool.false_eq_true, if_false] at hh ⊢
      cases ex with
      | true =>
        simp only [if_true] at hh ⊢
        simp at hh
        subst hh
        cases hy : yield st (SField.mk nm tg true false ty, v) with
        | mk st2 c =>
          simp only [List.cons_append, List.nil_append, foldlStop, hy]
          cases c with
          | true => simp [iterAgreeFields yield fr vr st2 rest hrest]
          | false => simp
      | false =>
        simp only [Bool.false_eq_true, if_false] at hh ⊢
        simp at hh
        subst hh
        simp [iterAgreeFields yield fr vr st rest hrest]
termination_by sizeOf vl
decreasing_by
  all_goals simp
  all_goals try omega
  all_goals (have hv9 := sizeOf_derefValue_le v; omega)
end

/-- validateElems_none: a validator that never errors produces no element
errors. -/
theorem validateElems_none (f : Val → Option String) (h : ∀ x, f x = none)
    (addr : Bool) (es : ValList) (nm : String) (j : Nat) :
    validateElems f addr es nm j = [] := by
  match es with
  | .nil => simp [validateElems]
  | .cons v rest =>
    simp [validateElems, validate_none f h,
      validateElems_none f h addr rest nm (j + 1)]

mutual
/-- validateNoErrVal: when the validator never errors, a successful run of
ValidateStructFields returns the empty error list. -/
theorem validateNoErrVal (f : Val → Option String) (h : ∀ x, f x = none)
    (st : Val) (pfx nameTag : String) (allow : List String)
    (l : List FieldError)
    (hok : validateStructFields f st pfx nameTag allow = .ok l) : l = [] := by
  unfold validateStructFields at hok
  generalize hd : derefValue st = d at hok
  cases d
  case structV fs vs =>
    exact validateNoErrFields f h (isAddrInput st) fs vs pfx nameTag allow l hok
  all_goals exact Except.noConfusion hok
termination_by sizeOf (derefValue st)
decreasing_by
  rw [hd]
  simp
  all_goals omega

/-- validateNoErrHead: when the validator never errors, a successful per-field
step contributes no FieldError. -/
theorem validateNoErrHead (f : Val → Option String) (h : ∀ x, f x = none)
    (addr : Bool) (fld : SField) (v : Val) (pfx nameTag : String)
    (allow : List String) (head : List FieldError)
    (hh : validateFieldHead f addr fld v pfx nameTag allow = .ok head) :
    head = [] := by
  unfold validateFieldHead at hh
  split at hh
  · simpa using hh.symm
  · simp only [validate_none f h] at hh
    split at hh
    · simpa using hh.symm
    · obtain ⟨extra, he, hp⟩ := exceptBindEqOk hh
      have hex : extra = [] := by
        generalize hveq : v = v2 at he
        cases v2
        case structV sfs svs => exact validateNoErrVal f h _ _ _ _ extra he
        case sliceV e sv =>
          cases sv with
          | nilS => simpa using he.symm
          | mkS es => simpa [validateElems_none f h] using he.symm
        case arrayV e es => simpa [validateElems_none f h] using he.symm
        case mapV b => exact Except.noConfusion he
        all_goals simpa using he.symm
      subst hex
      simpa using hp.symm
termination_by sizeOf v + 1
decreasing_by
  rw [hveq]
  cases addr <;> simp [addrOf, derefValue] <;> omega

/-- validateNoErrFields is the field-list form of validateNoErrVal. -/
theorem validateNoErrFields (f : Val → Option String) (h : ∀ x, f x = none)
    (addr : Bool) (fl : FieldList) (vl : ValList) (pfx nameTag : String)
    (allow : List String) (l : List FieldError)
    (hok : validateFieldsGo f addr fl vl pfx nameTag allow = .ok l) : l = [] := by
  match fl, vl with
  | .nil, .nil | .nil, .cons _ _ | .cons _ _, .nil =>
    unfold validateFieldsGo at hok
    simp at hok
    simp [hok]
  | .cons fld fr, .cons v vr =>
    unfold validateFieldsGo at hok
    obtain ⟨head, hh, h2⟩ := exceptBindEqOk hok
    obtain ⟨rest, hr, h3⟩ := exceptBindEqOk h2
    have hrest : rest = [] :=
      validateNoErrFields f h addr fr vr pfx nameTag allow rest hr
    have hhead : head = [] :=
      validateNoErrHead f h addr fld v pfx nameTag allow head hh
    simp at h3
    simp [← h3, hhead, hrest]
termination_by sizeOf vl
decreasing_by
  all_goals have := one_le_sizeOf_valList vr
  all_goals simp
  all_goals try omega
  all_goals (cases addr <;> simp [addrOf, derefValue] <;> omega)
end

/-- derefValue_not_nonNilPtr: the result of DerefValue is never a non-nil
pointer, so dereferencing stops only at a nil pointer or a non-pointer. -/
theorem derefValue_not_nonNilPtr (v : Val) : isNonNilPtr (derefValue v) = false := by
  match v with
  | .ptrV e .nilP => simp [derefValue, isNonNilPtr]
  | .ptrV e (.toP w) => simpa [derefValue] using derefValue_not_nonNilPtr w
  | .intV _ | .strV _ | .boolV _ | .structV _ _ | .sliceV _ _ | .arrayV _ _
  | .mapV _ | .funcV _ | .chanV _ | .ifaceV _ | .invalid =>
    simp [derefValue, isNonNilPtr]

/-- fieldB is the declaration of an exported field B holding a pointer. -/
def fieldB (e : Ty) : SField := .mk "B" [] true false (.ptrT e)

/-- structB is a one-field struct instance whose field B is a non-nil pointer
to the value w. -/
def structB (e : Ty) (w : Val) : Val :=
  .structV (.cons (fieldB e) .nil) (.cons (.ptrV e (.toP w)) .nil)

/-- innerXFields is a struct field list with one exported field X tagged
json:"x". -/
def innerXFields : FieldList := .cons (.mk "X" [("json", "x")] true false .intT) .nil

/-- tyC2 is the struct type with an anonymous embedded field of type
struct having X (tagged json:"x") and a direct untagged field Y. -/
def tyC2 : Ty :=
  .structT (.cons (.mk "Embedded" [] true true (.structT innerXFields))
    (.cons (.mk "Y" [] true false .intT) .nil))

/-- exC5Inner is the field list of the embedded struct of the C5 example. -/
def exC5Inner : FieldList := .cons (.mk "X" [] true false .intT) .nil

/-- exC5Fields is the field list of the C5 example: an anonymous embedded
struct with field X, then a direct field Y. -/
def exC5Fields : FieldList :=
  .cons (.mk "Embedded" [] true true (.structT exC5Inner))
    (.cons (.mk "Y" [] true false .intT) .nil)

/-- exC5 is an instance of the C5 example struct with given field values. -/
def exC5 (x y : Int) : Val :=
  .structV exC5Fields
    (.cons (.structV exC5Inner (.cons (.intV x) .nil)) (.cons (.intV y) .nil))

/-- collectYield is a consumer that collects every yielded entry and never
stops early. -/
def collectYield : List (SField × Val) → SField × Val → List (SField × Val) × Bool :=
  fun acc e => (acc ++ [e], true)

/-- validateDemo is a validator that rejects empty strings and negative
integers, as in the spec example. -/
def validateDemo : Val → Option String := fun v =>
  match v with
  | .strV s => if s = "" then some "empty" else none
  | .intV n => if n < 0 then some "negative" else none
  | _ => none

/-- demoFields declares the two exported fields Name string and Age int. -/
def demoFields : FieldList :=
  .cons (.mk "Name" [] true false .strT) (.cons (.mk "Age" [] true false .intT) .nil)

/-- demoStruct is the instance with Name empty and Age negative. -/
def demoStruct : Val :=
  .structV demoFields (.cons (.strV "") (.cons (.intV (-1)) .nil))

/-- mapFieldList declares one exported field M of map kind. -/
def mapFieldList : FieldList := .cons (.mk "M" [] true false .mapT) .nil

/-- stMapNonNil is a struct whose field M is a non-nil map. -/
def stMapNonNil : Val := .structV mapFieldList (.cons (.mapV false) .nil)

/-- stMapNil is a struct whose field M is a nil map. -/
def stMapNil : Val := .structV mapFieldList (.cons (.mapV true) .nil)

/-- demo3Fields declares exported fields A string, B int, C int. -/
def demo3Fields : FieldList :=
  .cons (.mk "A" [] true false .strT)
    (.cons (.mk "B" [] true false .intT) (.cons (.mk "C" [] true false .intT) .nil))

/-- demo3 is the instance with A empty, B valid and C negative. -/
def demo3 : Val :=
  .structV demo3Fields (.cons (.strV "") (.cons (.intV 5) (.cons (.intV (-2)) .nil)))

/-- C3: the claim that a field whose resolved name does not equal the ignore
sentinel is processed exactly when the allow-list is empty or contains the
name fails: the resolved name a-b, produced by the naming layer from the tag
value a-b, differs from the sentinel - and is literally contained in the
allow-list, yet ignoreField still excludes it, because the filter tests
whether the name contains a dash anywhere. -/
theorem C3_counterexample :
    getFieldName (.mk "A" [("tag", "a-b")] true false .intT) "" "tag" = ("a-b", "") ∧
    ("a-b" : String) ≠ "-" ∧
    ignoreField ["a-b"] "a-b" "" = true := by
  refine ⟨rfl, by decide, rfl⟩

/-- C3 (amended): a field whose resolved name contains no dash character is
processed exactly when the allow-list is empty or literally contains that
resolved name; names containing a dash are always excluded, even when
allow-listed. -/
theorem C3_allowlist_roundtrip (allow : List String) (name ext : String)
    (h : strContainsDash name = false) :
    ignoreField allow name ext = false ↔ (allow = [] ∨ name ∈ allow) := by
  unfold ignoreField
  by_cases ha : allow = []
  · simp [ha, h]
  · by_cases hm : name ∈ allow
    · simp [ha, hm, h]
    · simp [ha, hm]

/-- C3 witness: the dash-free resolved name B, allow-listed exactly, is
processed. -/
theorem C3_witness :
    strContainsDash "B" = false ∧
    (ignoreField ["B"] "B" "" = false ↔ ((["B"] : List String) = [] ∨ ("B" : String) ∈ ["B"])) :=
  ⟨rfl, C3_allowlist_roundtrip ["B"] "B" "" rfl⟩

/-- C7: the claim that both DerefValue and DerefValueAndType stop at a nil
pointer without panicking fails for the reflection.go revision of
DerefValueAndType, which dereferences through the nil pointer and panics when
taking the type of the resulting invalid value. -/
theorem C7_counterexample :
    derefValueAndTypeOld (.ptrV .intT .nilP) = .error typeZeroMsg := rfl

/-- C7 (amended): DerefValue follows pointer indirection until a non-pointer
value or a nil pointer and always terminates with a result that is never a
non-nil pointer; a nil pointer input is returned unchanged without panic, and
the current DerefValueAndType still reports its pointer type; but the
reflection.go revision of DerefValueAndType panics on every nil pointer
input. -/
theorem C7_deref_normalization :
    (∀ v : Val, isNonNilPtr (derefValue v) = false) ∧
    (∀ e : Ty, derefValue (.ptrV e .nilP) = .ptrV e .nilP) ∧
    (∀ e : Ty, derefValueAndType (.ptrV e .nilP) = .ok (.ptrV e .nilP, .ptrT e)) ∧
    (∀ e : Ty, derefValueAndTypeOld (.ptrV e .nilP) = .error typeZeroMsg) := by
  refine ⟨derefValue_not_nonNilPtr, fun e => rfl, fun e => rfl, fun e => rfl⟩

/-- C8: IsNil agrees everywhere with the spec description of isNilLike: true
for the invalid value and for nil instances of the pointer, interface, func,
chan, map and slice kinds, false for every other kind, and it is total, so it
never panics. -/
theorem C8_isNil_spec : ∀ v : Val, isNil v = isNilLikeSpec v := by
  intro v
  cases v with
  | ptrV e p => cases p <;> rfl
  | sliceV e s => cases s <;> rfl
  | _ => rfl

/-- C10: FlatStructFieldCount equals the length of FlatStructFieldNames on
every type, panic cases included: both enumerate exactly the non-anonymous
fields at every embedding level, regardless of exportedness. -/
theorem C10_count_eq_names_length (t : Ty) :
    flatStructFieldCount t = Except.map List.length (flatStructFieldNames t) :=
  flatCount_eq_namesLength_ty t

/-- C4: two parts of the name-resolution claim fail. First, when a tag with
the key is present but its candidate name is empty (tag value ,omitempty),
exportedFieldName resolves to the empty string, not to the declared name A.
Second, in the validate.go pipeline a field whose candidate name a-b differs
from the sentinel - is still excluded: its zero value is not reported, because
ignoreField excludes every resolved name containing a dash. -/
theorem C4_counterexample :
    exportedFieldName (.mk "A" [("json", ",omitempty")] true false .intT) "json" = ("", true) ∧
    ("" : String) ≠ "A" ∧
    getFieldName (.mk "C" [("tag", "a-b")] true false .intT) "" "tag" = ("a-b", "") ∧
    ignoreField [] "a-b" "" = true ∧
    zeroValueExportedStructFieldNames
      (.structV (.cons (.mk "C" [("tag", "a-b")] true false .intT) .nil)
        (.cons (.intV 0) .nil)) "" "tag" [] = Except.ok [] := by
  refine ⟨rfl, by decide, rfl, rfl, ?_⟩
  simp [zeroValueExportedStructFieldNames, zeroFieldsGo, zeroFieldHead, derefValue,
    isAddrInput, getFieldName, tagGet, tagLookup, charsSplitComma, ignoreField,
    strContainsDash, SField.exported, SField.tag, SField.name, List.find?]

/-- C4 (amended): name resolution behaves as follows. When the tag key is
absent, exportedFieldName resolves an exported field to its declared name.
When a tag is present, the candidate is the portion before the first comma
and the rest is uninterpreted; the candidate - excludes the field, any other
candidate, including the empty one, becomes the resolved name without falling
back to the declared name. getFieldName splits the tag value the same way but
falls back to the declared name on an empty candidate and keeps the remainder
as ext. In the validate.go pipeline, any resolved name containing a dash is
excluded, not only the exact sentinel. -/
theorem C4_name_resolution :
    (∀ (nm : String) (tg : Tags) (an : Bool) (ty : Ty) (key : String),
      tagLookup tg key = none →
      exportedFieldName (.mk nm tg true an ty) key = (nm, true)) ∧
    (∀ (nm : String) (tg : Tags) (an : Bool) (ty : Ty) (key s : String),
      tagLookup tg key = some s →
      exportedFieldName (.mk nm tg true an ty) key =
        (if beforeComma s = "-" then ("", false) else (beforeComma s, true))) ∧
    (∀ (a b : String), ',' ∉ a.data →
      beforeComma (a ++ "," ++ b) = a ∧ afterComma (a ++ "," ++ b) = b) ∧
    (∀ b : String, beforeComma ("," ++ b) = "") ∧
    (∀ (f : SField) (pfx key : String),
      getFieldName f pfx key =
        (pfx ++ (if beforeComma (tagGet f.tag key) = "" then f.name
                 else beforeComma (tagGet f.tag key)),
         afterComma (tagGet f.tag key))) ∧
    (∀ (allow : List String) (name ext : String),
      strContainsDash name = true → ignoreField allow name ext = true) := by
  refine ⟨?_, ?_, ?_, beforeComma_leading_comma, getFieldName_eq, ?_⟩
  · intro nm tg an ty key h
    unfold exportedFieldName
    simp [SField.exported, SField.tag, SField.name, h]
  · intro nm tg an ty key s h
    unfold exportedFieldName
    simp [SField.exported, SField.tag, h]
  · intro a b h
    exact ⟨beforeComma_of_append a b h, afterComma_of_append a b h⟩
  · intro allow name ext h
    unfold ignoreField
    by_cases ha : allow = []
    · simp [ha, h]
    · by_cases hm : name ∈ allow
      · simp [ha, hm, h]
      · simp [ha, hm]

/-- C4 witness: an absent tag key falls back to the declared name, the tag
value name,omitempty has candidate name, and the dashed name x-y is excluded
by the validate.go filter. -/
theorem C4_witness :
    exportedFieldName (.mk "A" [] true false .intT) "json" = ("A", true) ∧
    beforeComma ("name" ++ "," ++ "omitempty") = "name" ∧
    ignoreField ["x-y"] "x-y" "" = true := by
  refine ⟨C4_name_resolution.1 "A" [] false .intT "json" rfl,
    (C4_name_resolution.2.2.1 "name" "omitempty" (by decide)).1,
    C4_name_resolution.2.2.2.2.2 ["x-y"] "x-y" "" rfl⟩

/-- C2: evaluation of the repository code at the failing input. For the
struct type with an anonymous embedded struct whose field X carries the tag
json:"x" and a direct untagged field Y, FlatStructFieldNames yields X then Y,
but FlatStructFieldTags with key json yields the embedded field name X, not
its tag value x, and FlatStructFieldTagsOrNames also yields X instead of x:
the anonymous branches splice FlatStructFieldNames instead of the tag
values, contradicting the documented behavior. -/
theorem C2_bug_eval :
    flatStructFieldNames tyC2 = .ok ["X", "Y"] ∧
    flatStructFieldTags tyC2 "json" = .ok ["X", ""] ∧
    flatStructFieldTagsOrNames tyC2 "json" = .ok ["X", "Y"] ∧
    tagGet [("json", "x")] "json" = "x" := by
  refine ⟨?_, ?_, ?_, rfl⟩
  · simp [flatStructFieldNames, flatNamesFields, derefType, tyC2, innerXFields]
  · simp [flatStructFieldTags, flatTagsFields, flatStructFieldNames, flatNamesFields,
      derefType, tyC2, innerXFields, tagGet, tagLookup]
  · simp [flatStructFieldTagsOrNames, flatTagsOrNamesFields, flatStructFieldNames,
      flatNamesFields, derefType, tyC2, innerXFields, tagGet, tagLookup]

/-- validate_eq_chainArgs: the validate chain returns exactly the first error
the validator reports along the list value, address, dereferenced pointee,
and stops there. -/
theorem validate_eq_chainArgs (f : Val → Option String) (addr : Bool) (v : Val) :
    validate f addr v = (chainArgs addr v).findSome? f := by
  unfold validate chainArgs
  cases hfv : f v with
  | some e => simp [List.findSome?, hfv]
  | none =>
    cases addr with
    | false => simp [List.findSome?, hfv]
    | true =>
      cases hfa : f (addrOf v) with
      | some e => simp [List.findSome?, hfv, hfa]
      | none =>
        cases v <;> (try simp [List.findSome?, hfv, hfa]) <;>
          (rename_i e p; cases p <;> simp [List.findSome?, hfv, hfa] <;>
            (cases hfw : f _ <;> simp [hfw]))

/-- C1: the claim that a non-nil pointer field to a non-struct is reported
exactly when the pointee equals its default fails. The field B of type
pointer to int holds a non-nil pointer to 0, the pointee is its default,
yet zero detection reports nothing: the generic check compares the pointer
itself with the nil zero pointer by deep equality, which is false. -/
theorem C1_counterexample :
    zeroValueExportedStructFieldNames (structB .intT (.intV 0)) "" "" [] = Except.ok [] ∧
    isZero (.intV 0) = true := by
  refine ⟨?_, rfl⟩
  simp [zeroValueExportedStructFieldNames, zeroFieldsGo, zeroFieldHead, structB, fieldB,
    derefValue, isAddrInput, getFieldName, tagGet, tagLookup, charsSplitComma,
    ignoreField, strContainsDash, SField.exported, SField.tag, SField.name, List.find?,
    isStructTy, isZero_nonNilPtr]

/-- C1 (amended): a field holding a non-nil pointer to a non-struct falls
through to the generic zero check applied to the pointer itself, not to the
dereferenced value; since a non-nil pointer is never deeply equal to the nil
zero pointer, IsZero of a non-nil pointer is false regardless of the pointee
and such a field is never reported. -/
theorem C1_nonnil_ptr_never_zero (e : Ty) (w : Val) (h : isStructTy e = false) :
    isZero (.ptrV e (.toP w)) = false ∧
    zeroValueExportedStructFieldNames (structB e w) "" "" [] = Except.ok [] := by
  refine ⟨isZero_nonNilPtr e w, ?_⟩
  simp [zeroValueExportedStructFieldNames, zeroFieldsGo, zeroFieldHead, structB, fieldB,
    derefValue, isAddrInput, getFieldName, tagGet, tagLookup, charsSplitComma,
    ignoreField, strContainsDash, SField.exported, SField.tag, SField.name, List.find?,
    h, isZero_nonNilPtr]

/-- C1 witness: at the concrete element type int and pointee 0 the amended
statement evaluates as proved. -/
theorem C1_witness :
    isZero (.ptrV .intT (.toP (.intV 0))) = false ∧
    zeroValueExportedStructFieldNames (structB .intT (.intV 0)) "" "" [] = Except.ok [] :=
  C1_nonnil_ptr_never_zero .intT (.intV 0) rfl

/-- C5: flattening visits declared fields in declaration order, an anonymous
embedded field is never itself emitted but its flattened entries are spliced
in place, and the lazy iterator agrees with the eager slice under any
early-terminating consumer: flattening the example struct with an embedded
field holding X and a direct field Y yields exactly the entries X then Y and
never an entry named Embedded. -/
theorem C5_flatten_order :
    (∀ (σ : Type) (yield : σ → SField × Val → σ × Bool) (s : Val) (st : σ)
        (l : List (SField × Val)),
        flatExportedStructFields s = .ok l →
        flatExportedStructFieldsIter yield s st = .ok (foldlStop yield st l)) ∧
    (∀ x y : Int,
        flatExportedStructFields (exC5 x y) =
          .ok [(.mk "X" [] true false .intT, .intV x),
               (.mk "Y" [] true false .intT, .intV y)]) := by
  constructor
  · intro σ yield s st l h
    exact iterAgreeVal yield s st l h
  · intro x y
    simp [flatExportedStructFields, flatExpFields, exC5, exC5Fields, exC5Inner,
      derefValue]

/-- C5 witness: running the iterator with a collecting consumer over the
example instance yields X then Y and finishes without early termination. -/
theorem C5_witness :
    flatExportedStructFieldsIter collectYield (exC5 1 2) [] =
      .ok ([(.mk "X" [] true false .intT, .intV 1),
            (.mk "Y" [] true false .intT, .intV 2)], true) := by
  rw [C5_flatten_order.1 _ collectYield (exC5 1 2) [] _ (C5_flatten_order.2 1 2)]
  simp [foldlStop, collectYield]

/-- C6: the validate chain runs the validator on the value, then on its
address when addressable, then on the pointee when the value is a non-nil
pointer, returning the first error; a field surviving the filters contributes
exactly one FieldError under its resolved name when the chain errors and none
otherwise; and the spec example with an empty Name and negative Age yields
exactly two FieldErrors. -/
theorem C6_validate_chain :
    (∀ (f : Val → Option String) (addr : Bool) (v : Val),
        validate f addr v = (chainArgs addr v).findSome? f) ∧
    (∀ (f : Val → Option String) (nm : String) (tg : Tags) (ty : Ty) (v : Val)
        (pfx nameTag : String) (allow : List String),
        ignoreField allow (getFieldName (.mk nm tg true false ty) pfx nameTag).1
          (getFieldName (.mk nm tg true false ty) pfx nameTag).2 = false →
        plainKind v = true →
        validateStructFields f
          (.ptrV (.structT (.cons (.mk nm tg true false ty) .nil))
            (.toP (.structV (.cons (.mk nm tg true false ty) .nil) (.cons v .nil))))
          pfx nameTag allow =
          .ok (match validate f true v with
               | some e => [((getFieldName (.mk nm tg true false ty) pfx nameTag).1, e)]
               | none => [])) ∧
    (validateStructFields validateDemo demoStruct "" "" [] =
      .ok [("Name", "empty"), ("Age", "negative")]) := by
  refine ⟨validate_eq_chainArgs, ?_, ?_⟩
  · intro f nm tg ty v pfx nameTag allow hig hpk
    cases v
    case structV a b => exact absurd hpk (by simp [plainKind])
    case sliceV a b => exact absurd hpk (by simp [plainKind])
    case arrayV a b => exact absurd hpk (by simp [plainKind])
    case mapV a => exact absurd hpk (by simp [plainKind])
    all_goals simp [validateStructFields, validateFieldsGo, validateFieldHead,
      derefValue, isAddrInput, hig, SField.exported]
  · simp [validateStructFields, validateFieldsGo, validateFieldHead, demoStruct,
      demoFields, derefValue, isAddrInput, getFieldName, tagGet, tagLookup,
      charsSplitComma, ignoreField, strContainsDash, SField.exported, SField.tag,
      SField.name, List.find?, validate, validateDemo]

/-- C6 witness: a pointer-to-struct argument makes the single Name field
addressable; the validator rejecting its empty string is recorded as exactly
one FieldError under the resolved name. -/
theorem C6_witness :
    validateStructFields validateDemo
      (.ptrV (.structT (.cons (.mk "Name" [] true false .strT) .nil))
        (.toP (.structV (.cons (.mk "Name" [] true false .strT) .nil)
          (.cons (.strV "") .nil))))
      "" "" [] = .ok [("Name", "empty")] := by
  rw [C6_validate_chain.2.1 validateDemo "Name" [] .strT (.strV "") "" "" [] rfl rfl]
  simp [validate, validateDemo, getFieldName, tagGet, tagLookup, charsSplitComma,
    SField.tag, SField.name]

/-- C9: a non-struct argument aborts both traversals with the message naming
the offending concrete type; a non-nil map field fails fast with TODO in both
traversals while a nil map field is reported zero by zero detection; a
validator that never errors makes every successful validation run return the
empty list; and validator errors are aggregated over all invalid fields
without aborting the traversal. -/
theorem C9_error_channels :
    (∀ (st : Val) (pfx nameTag : String) (allow : List String)
        (f : Val → Option String),
        isStructVal (derefValue st) = false → isInvalidVal (derefValue st) = false →
        zeroValueExportedStructFieldNames st pfx nameTag allow =
          .error (showAnyTy st ++ " is not a struct or pointer to a struct") ∧
        validateStructFields f st pfx nameTag allow =
          .error (showAnyTy st ++ " is not a struct or pointer to a struct")) ∧
    (zeroValueExportedStructFieldNames stMapNonNil "" "" [] = .error "TODO") ∧
    (∀ f : Val → Option String,
        validateStructFields f stMapNonNil "" "" [] = .error "TODO") ∧
    (zeroValueExportedStructFieldNames stMapNil "" "" [] = .ok ["M"]) ∧
    (∀ (f : Val → Option String) (st : Val) (pfx nameTag : String)
        (allow : List String) (l : List FieldError),
        (∀ x, f x = none) → validateStructFields f st pfx nameTag allow = .ok l →
        l = []) ∧
    (validateStructFields validateDemo demo3 "" "" [] =
      .ok [("A", "empty"), ("C", "negative")]) := by
  refine ⟨?_, ?_, ?_, ?_, ?_, ?_⟩
  · intro st pfx nameTag allow f h1 h2
    constructor
    · unfold zeroValueExportedStructFieldNames
      generalize hd : derefValue st = d
      rw [hd] at h1 h2
      cases d <;> simp_all [isStructVal, isInvalidVal]
    · unfold validateStructFields
      generalize hd : derefValue st = d
      rw [hd] at h1 h2
      cases d <;> simp_all [isStructVal, isInvalidVal]
  · simp [zeroValueExportedStructFieldNames, zeroFieldsGo, zeroFieldHead, stMapNonNil,
      mapFieldList, derefValue, isAddrInput, getFieldName, tagGet, tagLookup,
      charsSplitComma, ignoreField, strContainsDash, SField.exported, SField.tag,
      SField.name, List.find?]
  · intro f
    simp [validateStructFields, validateFieldsGo, validateFieldHead, stMapNonNil,
      mapFieldList, derefValue, isAddrInput, getFieldName, tagGet, tagLookup,
      charsSplitComma, ignoreField, strContainsDash, SField.exported, SField.tag,
      SField.name, List.find?]
  · simp [zeroValueExportedStructFieldNames, zeroFieldsGo, zeroFieldHead, stMapNil,
      mapFieldList, derefValue, isAddrInput, getFieldName, tagGet, tagLookup,
      charsSplitComma, ignoreField, strContainsDash, SField.exported, SField.tag,
      SField.name, List.find?]
  · intro f st pfx nameTag allow l hnone hok
    exact validateNoErrVal f hnone st pfx nameTag allow l hok
  · simp [validateStructFields, validateFieldsGo, validateFieldHead, demo3,
      demo3Fields, derefValue, isAddrInput, getFieldName, tagGet, tagLookup,
      charsSplitComma, ignoreField, strContainsDash, SField.exported, SField.tag,
      SField.name, List.find?, validate, validateDemo]

/-- C9 witness: an int argument aborts zero detection with the message naming
int, and a validator that never errors yields the empty error list on the
three-field example. -/
theorem C9_witness :
    zeroValueExportedStructFieldNames (.intV 3) "" "" [] =
      .error (showAnyTy (.intV 3) ++ " is not a struct or pointer to a struct") ∧
    ([] : List FieldError) = [] := by
  constructor
  · exact (C9_error_channels.1 (.intV 3) "" "" [] (fun _ => none) rfl rfl).1
  · exact C9_error_channels.2.2.2.2.1 (fun _ => none) demo3 "" "" [] []
      (fun x => rfl)
      (by simp [validateStructFields, validateFieldsGo, validateFieldHead, demo3,
        demo3Fields, derefValue, isAddrInput, getFieldName, tagGet, tagLookup,
        charsSplitComma, ignoreField, strContainsDash, SField.exported, SField.tag,
        SField.name, List.find?, validate])

end GoReflection
